/-
Verification of the expense-splitter backend (Flask, src/backend/app).

Shallow embedding conventions:

* Monetary values.  The source stores money as Python `Decimal` quantized to
  2 fraction places (`Numeric(10,2)` columns).  We embed every stored amount
  as an integer number of cents (`ℤ`).  A decimal with exactly 2 fraction
  digits corresponds bijectively to an integer of cents, exact decimal
  addition/subtraction corresponds to integer addition/subtraction, and
  `Decimal.quantize(Decimal("0.01"))` on an already-2dp value is the
  identity.  Request-supplied amounts (arbitrary decimals) are embedded as
  mantissa/fraction-digit pairs (`Dec`, the exact content of a decimal
  string); `quantize(Decimal("0.01"))` with the default ROUND_HALF_EVEN
  context becomes `quantize2 : Dec → ℤ` (cents, round half to even).  `quantize(..., rounding=ROUND_DOWN)` (round toward zero) on the
  quotient `amount / n` becomes `Int.tdiv` on cents: Python `Decimal`
  division first rounds to 28 significant digits, but for the value ranges
  representable in the `Numeric(10,2)` columns this never crosses a cent
  boundary, so truncating the exact quotient at the cent is faithful.

* Database state.  SQLAlchemy rows become records; the session becomes an
  explicit `DB` value threaded through the operations.  `abort(code, msg)`
  raises, the surrounding transaction is never committed and is rolled back
  at request teardown, so a failing operation leaves the persistent state
  unchanged: operations return `Except String DB`, errors carrying the
  `abort` message and no new state.

* Autoincrement primary keys become a `nextId` counter on `DB`.
-/
import Mathlib

namespace ExpenseSplitter

instance instDecEqExcept {ε α : Type} [DecidableEq ε] [DecidableEq α] :
    DecidableEq (Except ε α) := fun x y =>
  match x, y with
  | .ok a, .ok b =>
      if h : a = b then .isTrue (congrArg Except.ok h)
      else .isFalse (fun hh => h (Except.ok.inj hh))
  | .error a, .error b =>
      if h : a = b then .isTrue (congrArg Except.error h)
      else .isFalse (fun hh => h (Except.error.inj hh))
  | .ok _, .error _ => .isFalse (fun hh => Except.noConfusion hh)
  | .error _, .ok _ => .isFalse (fun hh => Except.noConfusion hh)

/-- A request-supplied monetary value.  The API accepts decimal strings,
parsed by `Decimal(str(value))`; such a decimal is exactly a mantissa `m`
together with a count `e` of fraction digits, denoting `m / 10^e`.  Its sign
is the sign of `m`. -/
structure Dec where
  m : ℤ
  e : ℕ
deriving DecidableEq

/-- The rational value of a decimal input. -/
def Dec.val (d : Dec) : ℚ := (d.m : ℚ) / (10 : ℚ) ^ d.e

/-- Round-half-to-even of the integer fraction `num / den` (`den > 0`),
the default `Decimal` rounding mode ROUND_HALF_EVEN used by `quantize`
when no explicit rounding is given. -/
def roundHalfEven (num den : ℤ) : ℤ :=
  let f := num.fdiv den
  let r := num - f * den
  if 2 * r < den then f
  else if den < 2 * r then f + 1
  else if f % 2 = 0 then f else f + 1

/-- Embeds `Decimal(v).quantize(Decimal("0.01"))` as a map from a decimal input to
cents: scale up exactly when the input has at most 2 fraction digits,
otherwise round half-to-even at the cent. -/
def quantize2 (d : Dec) : ℤ :=
  if d.e ≤ 2 then d.m * 10 ^ (2 - d.e)
  else roundHalfEven d.m (10 ^ (d.e - 2))

/-- Drop leading whitespace characters from a character list. -/
def dropLeadingWS : List Char → List Char
  | [] => []
  | c :: rest => if c.isWhitespace then dropLeadingWS rest else c :: rest

/-- Python `str.strip()`: remove leading and trailing whitespace. -/
def pyStrip (s : String) : String :=
  ⟨(dropLeadingWS (dropLeadingWS s.data.reverse).reverse)⟩

/-! ## Data model (src/backend/app/models.py) -/

/-- Row of `expense_shares` (model `ExpenseShare`); `amountC` is the
`Numeric(10,2)` amount in cents. -/
structure ShareRec where
  id : ℕ
  user_id : ℕ
  amountC : ℤ
  is_settled : Bool
deriving DecidableEq

/-- Row of `expenses` (model `Expense`) together with its owned `shares`
relationship; receipt fields are omitted (not referenced by any claim). -/
structure ExpenseRec where
  id : ℕ
  group_id : ℕ
  paid_by : Option ℕ
  description : String
  amountC : ℤ
  date : ℕ
  shares : List ShareRec
deriving DecidableEq

/-- Row of `group_members` (model `GroupMember`). -/
structure MemberRec where
  id : ℕ
  group_id : ℕ
  user_id : ℕ
  role : Option String
deriving DecidableEq

/-- The relational store: user ids, group ids, membership rows, expense rows
(each carrying its shares), and the autoincrement counter. -/
structure DB where
  users : List ℕ
  groups : List ℕ
  members : List MemberRec
  expenses : List ExpenseRec
  nextId : ℕ
deriving DecidableEq

/-- Embeds `[gm.user_id for gm in GroupMember.query.filter_by(group_id=gid)]`. -/
def membersOf (db : DB) (gid : ℕ) : List ℕ :=
  (db.members.filter (fun m => m.group_id == gid)).map (fun m => m.user_id)

/-- Embeds `Expense.query.get(eid)`. -/
def findExpense (db : DB) (eid : ℕ) : Option ExpenseRec :=
  db.expenses.find? (fun e => e.id == eid)

/-! ## Split Allocator (`_equal_split`, routes/expenses.py lines 72-88) -/

/-- The `for idx, uid in enumerate(user_ids)` loop of `_equal_split`: hand
out `base` cents to everyone, plus one extra cent while `remainder_cents`
is still positive (the counter is decremented as the loop walks the list). -/
def splitLoop (baseC : ℤ) : List ℕ → ℤ → List (ℕ × ℤ)
  | [], _ => []
  | uid :: rest, rem =>
      if rem > 0 then (uid, baseC + 1) :: splitLoop baseC rest (rem - 1)
      else (uid, baseC) :: splitLoop baseC rest rem

/-- Embeds `_equal_split(amount, user_ids)` on cents.  `base` is the per-head
quotient truncated toward zero at the cent (`quantize(0.01, ROUND_DOWN)`),
`rem` is `int((amount - base*n) * 100)`, exact because both operands carry
2 fraction digits. -/
def equal_split (amountC : ℤ) (user_ids : List ℕ) : Except String (List (ℕ × ℤ)) :=
  let n := user_ids.length
  if n = 0 then .error "Cannot split expense: the group has no members"
  else
    let baseC := amountC.tdiv n
    let rem := amountC - baseC * n
    .ok (splitLoop baseC user_ids rem)

/-! ## Share Reconciler (`_replace_shares`, routes/expenses.py lines 91-116) -/

/-- The explicit-shares loop of `_replace_shares`: quantize each supplied
amount, reject a user that is not a member of the expense's group, and
accumulate the running `total`.  Returns the built `(user, cents)` list and
the total. -/
def explicitLoop (memberIds : List ℕ) : List (ℕ × Dec) → Except String (List (ℕ × ℤ) × ℤ)
  | [] => .ok ([], 0)
  | (uid, q) :: rest =>
      let amt := quantize2 q
      if uid ∈ memberIds then
        match explicitLoop memberIds rest with
        | .error m => .error m
        | .ok (l, total) => .ok ((uid, amt) :: l, amt + total)
      else .error ("user_id " ++ toString uid ++ " is not a member of the group")

/-- Embeds `_replace_shares(expense, new_shares)` reduced to its pure core: from
the expense amount (cents), the group's current member ids and the optional
supplied shares, compute the `(user, cents)` pairs that will replace the
expense's share rows.  `none` takes the equal-split path; `some` takes the
explicit path and enforces the sum check.  The caller installs the result
with `is_settled = false` (the `ExpenseShare` column default). -/
def replace_shares (memberIds : List ℕ) (amountC : ℤ) :
    Option (List (ℕ × Dec)) → Except String (List (ℕ × ℤ))
  | none => equal_split amountC memberIds
  | some shares =>
      match explicitLoop memberIds shares with
      | .error m => .error m
      | .ok (l, total) =>
          if total ≠ amountC then .error "Sum of shares must equal the expense amount"
          else .ok l

/-- Turn the reconciler's `(user, cents)` pairs into fresh `ExpenseShare`
rows: consecutive new primary keys, `is_settled = false` default. -/
def mkShares (startId : ℕ) : List (ℕ × ℤ) → List ShareRec
  | [] => []
  | p :: rest => ⟨startId, p.1, p.2, false⟩ :: mkShares (startId + 1) rest

/-- Embeds `_ensure_user_in_group(group_id, user_id)`: `None` passes, otherwise the
user must have a membership row in the group. -/
def ensure_user_in_group (db : DB) (gid : ℕ) : Option ℕ → Except String Unit
  | none => .ok ()
  | some uid =>
      if (db.members.find? (fun m => m.group_id == gid && m.user_id == uid)).isSome
      then .ok ()
      else .error "paid_by_user_id must be a member of the group"

/-! ## Expense creation (`GroupExpensesCollection.post`, lines 146-171),
including the marshmallow-level validation `ExpenseCreateSchema.validate_shares`
(lines 37-45), which runs before the view body. -/

/-- Embeds `POST /groups/{gid}/expenses`.  Supplied amounts are exact decimals
embedded as rationals; `sharesIn = none` means the `shares` field was absent
from the payload. -/
def expense_create (db : DB) (gid : ℕ) (description : String) (amountQ : Dec)
    (paid_by : Option ℕ) (sharesIn : Option (List (ℕ × Dec))) : Except String DB :=
  -- ExpenseCreateSchema.validate_shares: every supplied amount must be > 0
  if (sharesIn.getD []).any (fun p => decide (p.2.m ≤ 0)) then
    .error "Share amount must be positive"
  else if gid ∉ db.groups then .error "Group not found"
  else
    let amountC := quantize2 amountQ
    match ensure_user_in_group db gid paid_by with
    | .error m => .error m
    | .ok _ =>
        match replace_shares (membersOf db gid) amountC sharesIn with
        | .error m => .error m
        | .ok l =>
            let eid := db.nextId
            let e : ExpenseRec :=
              ⟨eid, gid, paid_by, pyStrip description, amountC, 0, mkShares (eid + 1) l⟩
            .ok { db with
                  expenses := db.expenses ++ [e],
                  nextId := eid + 1 + l.length }

/-! ## Expense update (`ExpenseItem.patch`, lines 196-225) -/

/-- The JSON body of a `PATCH /expenses/{id}` request
(`ExpenseUpdateSchema`): `none` at the outer layer means the field was
absent from the payload. -/
structure PatchData where
  description : Option String
  paid_by : Option (Option ℕ)
  date : Option ℕ
  amount : Option Dec
  shares : Option (List (ℕ × Dec))
deriving DecidableEq

/-- Replace the expense with id `eid` by `f` applied to it, in place. -/
def updateExpense (db : DB) (eid : ℕ) (f : ExpenseRec → ExpenseRec) (nid : ℕ) : DB :=
  { db with
    expenses := db.expenses.map (fun e => if e.id == eid then f e else e),
    nextId := nid }

/-- Embeds `if "description" in data and data["description"]: expense.description =
data["description"].strip()`. -/
def applyDesc (p : PatchData) (e : ExpenseRec) : ExpenseRec :=
  match p.description with
  | some d => if d ≠ "" then { e with description := pyStrip d } else e
  | none => e

/-- Embeds `if "expense_date" in data and data["expense_date"]: expense.expense_date
= data["expense_date"]` (a supplied datetime is always truthy; an absent or
null field leaves the stored date alone). -/
def applyDate (p : PatchData) (e : ExpenseRec) : ExpenseRec :=
  match p.date with
  | some d => { e with date := d }
  | none => e

/-- Embeds `if "paid_by_user_id" in data: _ensure_user_in_group(...); expense.paid_by_user_id = ...`:
the new payer when the field is present (validated against the group), the
stored payer otherwise. -/
def resolvePayer (db : DB) (p : PatchData) (e : ExpenseRec) : Except String (Option ℕ) :=
  match p.paid_by with
  | some pb => (ensure_user_in_group db e.group_id pb).map (fun _ => pb)
  | none => .ok e.paid_by

/-- Embeds `PATCH /expenses/{eid}`.  Field-presence checks and the empty-string /
null truthiness guards mirror the source line by line; `_replace_shares` is
invoked with `None` exactly when `amount` is present and `shares` absent,
and with the supplied list whenever `shares` is present. -/
def expense_patch (db : DB) (eid : ℕ) (p : PatchData) : Except String DB :=
  match findExpense db eid with
  | none => .error "Expense not found"
  | some e =>
      match resolvePayer db p e with
      | .error m => .error m
      | .ok pb' =>
          let e3 := applyDate p { applyDesc p e with paid_by := pb' }
          match p.amount, p.shares with
          | none, none => .ok (updateExpense db eid (fun _ => e3) db.nextId)
          | some q, none =>
              -- amount updated, no shares supplied: recompute equal split
              let na := quantize2 q
              match replace_shares (membersOf db e.group_id) na none with
              | .error m => .error m
              | .ok l =>
                  .ok (updateExpense db eid
                        (fun _ => { e3 with amountC := na, shares := mkShares db.nextId l })
                        (db.nextId + l.length))
          | some q, some s =>
              -- amount set first, then shares validated against the new amount
              let na := quantize2 q
              match replace_shares (membersOf db e.group_id) na (some s) with
              | .error m => .error m
              | .ok l =>
                  .ok (updateExpense db eid
                        (fun _ => { e3 with amountC := na, shares := mkShares db.nextId l })
                        (db.nextId + l.length))
          | none, some s =>
              match replace_shares (membersOf db e.group_id) e3.amountC (some s) with
              | .error m => .error m
              | .ok l =>
                  .ok (updateExpense db eid
                        (fun _ => { e3 with shares := mkShares db.nextId l })
                        (db.nextId + l.length))

/-! ## Settlement (`ExpenseShareSettle.post`, lines 251-261) -/

/-- Embeds `share.is_settled = True` on the share with primary key `sid`. -/
def settleFn (sid : ℕ) (sh : ShareRec) : ShareRec :=
  if sh.id == sid then { sh with is_settled := true } else sh

/-- Apply `settleFn` to an expense's share collection. -/
def settleExp (sid : ℕ) (x : ExpenseRec) : ExpenseRec :=
  { x with shares := x.shares.map (settleFn sid) }

/-- Embeds `POST /expenses/{eid}/shares/{sid}/settle`: look the share up by
`(id, expense_id)` and set `is_settled = True`. -/
def settle_share (db : DB) (eid sid : ℕ) : Except String DB :=
  match findExpense db eid with
  | none => .error "Expense not found"
  | some e =>
      if (e.shares.find? (fun sh => sh.id == sid)).isSome then
        .ok (updateExpense db eid (settleExp sid) db.nextId)
      else .error "Expense share not found"

/-! ## Membership (`GroupMembersCollection.post` / `GroupMemberItem.delete`,
routes/members.py) -/

/-- Embeds `POST /groups/{gid}/members`. -/
def member_add (db : DB) (gid uid : ℕ) (role : Option String) : Except String DB :=
  if gid ∉ db.groups then .error "Group not found"
  else if uid ∉ db.users then .error "User not found"
  else if (db.members.find? (fun m => m.group_id == gid && m.user_id == uid)).isSome then
    .error "User is already a member of the group"
  else
    .ok { db with
          members := db.members ++ [⟨db.nextId, gid, uid, role⟩],
          nextId := db.nextId + 1 }

/-- Embeds `DELETE /groups/{gid}/members/{mid}`. -/
def member_remove (db : DB) (gid mid : ℕ) : Except String DB :=
  match db.members.find? (fun m => m.id == mid && m.group_id == gid) with
  | none => .error "Group member not found"
  | some _ =>
      .ok { db with
            members := db.members.filter (fun m => !(m.id == mid && m.group_id == gid)) }

/-! ## Balance Aggregator (`GroupBalances.get`, routes/balances.py lines 33-65) -/

/-- Embeds `net[uid] = net.get(uid, Decimal("0")) + d` on the insertion-ordered
dict embedded as an association list: update the first entry with that key,
or append a fresh one. -/
def updNet : List (ℕ × ℤ) → ℕ → ℤ → List (ℕ × ℤ)
  | [], uid, d => [(uid, d)]
  | p :: rest, uid, d =>
      if p.1 == uid then (p.1, p.2 + d) :: rest else p :: updNet rest uid d

/-- Embeds `Expense.query.filter_by(group_id=gid).all()`. -/
def expensesOf (db : DB) (gid : ℕ) : List ExpenseRec :=
  db.expenses.filter (fun e => e.group_id == gid)

/-- The body of the `for exp in expenses:` loop: credit the payer with the
full amount when `exp.paid_by_user_id` is truthy (non-null and non-zero),
then debit every unsettled share. -/
def expenseStep (net : List (ℕ × ℤ)) (e : ExpenseRec) : List (ℕ × ℤ) :=
  let net1 := match e.paid_by with
    | some p => if p ≠ 0 then updNet net p e.amountC else net
    | none => net
  e.shares.foldl
    (fun n sh => if sh.is_settled then n else updNet n sh.user_id (-sh.amountC)) net1

/-- The accumulated `net` dict after both loops of `GroupBalances.get`. -/
def computeNet (db : DB) (gid : ℕ) : List (ℕ × ℤ) :=
  (expensesOf db gid).foldl expenseStep []

/-- Embeds `GET /groups/{gid}/balances`, reduced to the userId-to-cents mapping
(the route wraps each entry with user info and renders the balance with
`quantize(Decimal("0.01"))`, the identity on cents). -/
def group_balances (db : DB) (gid : ℕ) : Except String (List (ℕ × ℤ)) :=
  if gid ∈ db.groups then .ok (computeNet db gid) else .error "Group not found"

/-- Lookup in the embedded dict. -/
def netLookup (net : List (ℕ × ℤ)) (uid : ℕ) : Option ℤ :=
  (net.find? (fun p => p.1 == uid)).map (fun p => p.2)

/-! # Properties of the Split Allocator -/

lemma splitLoop_map_fst (b : ℤ) : ∀ (l : List ℕ) (r : ℤ),
    (splitLoop b l r).map Prod.fst = l
  | [], _ => rfl
  | _ :: rest, r => by
    by_cases hr : r > 0 <;> simp [splitLoop, hr, splitLoop_map_fst b rest]

lemma splitLoop_length (b : ℤ) (l : List ℕ) (r : ℤ) :
    (splitLoop b l r).length = l.length := by
  have h := congrArg List.length (splitLoop_map_fst b l r)
  simpa using h

lemma splitLoop_get? (b : ℤ) : ∀ (l : List ℕ) (r : ℤ) (i : ℕ),
    (splitLoop b l r).get? i =
      (l.get? i).map (fun u => (u, if (i : ℤ) < r then b + 1 else b))
  | [], _, _ => by simp [splitLoop]
  | u :: rest, r, 0 => by
    by_cases hr : r > 0
    · simp only [splitLoop, if_pos hr, List.get?_cons_zero, Option.map_some']
      rw [if_pos (by push_cast; omega)]
    · simp only [splitLoop, if_neg hr, List.get?_cons_zero, Option.map_some']
      rw [if_neg (by push_cast; omega)]
  | u :: rest, r, (j+1) => by
    by_cases hr : r > 0
    · simp only [splitLoop, if_pos hr, List.get?_cons_succ]
      rw [splitLoop_get? b rest (r - 1) j]
      cases rest.get? j with
      | none => rfl
      | some a =>
        simp only [Option.map_some', Option.some.injEq, Prod.mk.injEq, true_and]
        exact if_congr (by push_cast; omega) rfl rfl
    · simp only [splitLoop, if_neg hr, List.get?_cons_succ]
      rw [splitLoop_get? b rest r j]
      cases rest.get? j with
      | none => rfl
      | some a =>
        simp only [Option.map_some', Option.some.injEq, Prod.mk.injEq, true_and]
        exact if_congr (by push_cast; omega) rfl rfl

lemma splitLoop_snd_mem (b : ℤ) : ∀ (l : List ℕ) (r : ℤ),
    ∀ x ∈ splitLoop b l r, x.2 = b ∨ x.2 = b + 1
  | [], _ => by simp [splitLoop]
  | u :: rest, r => by
    intro x hx
    by_cases hr : r > 0 <;> simp only [splitLoop, hr, if_pos, if_neg] at hx <;>
      rcases List.mem_cons.mp hx with h | h
    · subst h; right; rfl
    · exact splitLoop_snd_mem b rest (r - 1) x h
    · subst h; left; rfl
    · exact splitLoop_snd_mem b rest r x h

lemma splitLoop_sum (b : ℤ) : ∀ (l : List ℕ) (r : ℤ), 0 ≤ r → r ≤ l.length →
    ((splitLoop b l r).map Prod.snd).sum = l.length * b + r
  | [], r, h0, h1 => by
    simp only [List.length_nil] at h1
    have : r = 0 := by exact_mod_cast le_antisymm h1 h0
    simp [splitLoop, this]
  | u :: rest, r, h0, h1 => by
    by_cases hr : r > 0
    · have ih := splitLoop_sum b rest (r - 1) (by omega)
        (by simp only [List.length_cons] at h1; push_cast at h1 ⊢; omega)
      simp only [splitLoop, if_pos hr, List.map_cons, List.sum_cons, ih,
        List.length_cons]
      push_cast
      ring
    · have hr0 : r = 0 := le_antisymm (by omega) h0
      subst hr0
      have ih := splitLoop_sum b rest 0 le_rfl (by positivity)
      simp only [splitLoop, if_neg hr, List.map_cons, List.sum_cons, ih,
        List.length_cons]
      push_cast
      ring

/-- C1: for every positive total with exactly 2 fraction digits (an integer
`amountC` of cents) and every non-empty list of distinct member ids, the
equal-split allocator succeeds and returns exactly one amount per member in
input order; with `base = ⌊amountC / n⌋` (the cent-level round-down) and
`remainderCents = amountC % n` (the exact leftover-cent count), entry `i`
is `base + 1` for `i < remainderCents` and `base` afterwards; the amounts
(integers of cents, hence exactly 2 fraction digits) sum exactly to the
total and pairwise differ by at most one cent; and concretely
`allocate(10.00, [1,2,3]) = [1 ↦ 3.34, 2 ↦ 3.33, 3 ↦ 3.33]`. -/
theorem claim_C1 (amountC : ℤ) (ids : List ℕ)
    (hpos : 0 < amountC) (hne : ids ≠ []) (hnodup : ids.Nodup) :
    ∃ out, equal_split amountC ids = .ok out ∧
      out.length = ids.length ∧
      out.map Prod.fst = ids ∧
      (∀ i : ℕ, out.get? i = (ids.get? i).map (fun u =>
        (u, if (i : ℤ) < amountC % (ids.length : ℤ)
            then amountC / (ids.length : ℤ) + 1
            else amountC / (ids.length : ℤ)))) ∧
      (out.map Prod.snd).sum = amountC ∧
      (∀ x ∈ out, ∀ y ∈ out, (x.2 - y.2).natAbs ≤ 1) ∧
      equal_split 1000 [1, 2, 3] = .ok [(1, 334), (2, 333), (3, 333)] := by
  have hn : 0 < ids.length := List.length_pos.mpr hne
  have hnz : (ids.length : ℤ) ≠ 0 := by exact_mod_cast Nat.pos_iff_ne_zero.mp hn
  have hnpos : (0 : ℤ) < (ids.length : ℤ) := by exact_mod_cast hn
  have hbase : amountC.tdiv (ids.length : ℤ) = amountC / (ids.length : ℤ) :=
    Int.tdiv_eq_ediv hpos.le hnpos.le
  have htm := Int.tdiv_add_tmod amountC (ids.length : ℤ)
  have hrem : amountC - amountC.tdiv (ids.length : ℤ) * (ids.length : ℤ)
      = Int.tmod amountC (ids.length : ℤ) := by linarith
  have hmod : Int.tmod amountC (ids.length : ℤ) = amountC % (ids.length : ℤ) :=
    Int.tmod_eq_emod hpos.le hnpos.le
  have h0 : 0 ≤ Int.tmod amountC (ids.length : ℤ) :=
    Int.tmod_nonneg _ hpos.le
  have hlt : Int.tmod amountC (ids.length : ℤ) < (ids.length : ℤ) :=
    Int.tmod_lt_of_pos amountC hnpos
  refine ⟨splitLoop (amountC.tdiv (ids.length : ℤ)) ids
      (amountC - amountC.tdiv (ids.length : ℤ) * (ids.length : ℤ)),
    ?_, ?_, ?_, ?_, ?_, ?_, by decide⟩
  · simp only [equal_split]
    rw [if_neg (Nat.pos_iff_ne_zero.mp hn)]
  · exact splitLoop_length _ _ _
  · exact splitLoop_map_fst _ _ _
  · intro i
    rw [splitLoop_get?, hrem, hmod, hbase]
  · rw [splitLoop_sum _ _ _ (hrem ▸ h0) (by rw [hrem]; omega)]
    linarith
  · intro x hx y hy
    rcases splitLoop_snd_mem _ _ _ x hx with h | h <;>
      rcases splitLoop_snd_mem _ _ _ y hy with h' | h' <;> rw [h, h'] <;> simp

/-- Witness for C1 at `total = 10.00`, members `[1, 2, 3]`. -/
theorem claim_C1_witness :
    ∃ out, equal_split 1000 [1, 2, 3] = .ok out ∧
      out.length = [1, 2, 3].length ∧
      out.map Prod.fst = [1, 2, 3] ∧
      (∀ i : ℕ, out.get? i = ([1, 2, 3].get? i).map (fun u =>
        (u, if (i : ℤ) < 1000 % (([1, 2, 3] : List ℕ).length : ℤ)
            then 1000 / (([1, 2, 3] : List ℕ).length : ℤ) + 1
            else 1000 / (([1, 2, 3] : List ℕ).length : ℤ)))) ∧
      (out.map Prod.snd).sum = 1000 ∧
      (∀ x ∈ out, ∀ y ∈ out, (x.2 - y.2).natAbs ≤ 1) ∧
      equal_split 1000 [1, 2, 3] = .ok [(1, 334), (2, 333), (3, 333)] :=
  claim_C1 1000 [1, 2, 3] (by decide) (by decide) (by decide)

/-! # Properties of the Share Reconciler -/

/-- An operation result that committed (no `abort` was raised). -/
def okB {α : Type} : Except String α → Bool
  | .ok _ => true
  | .error _ => false

lemma explicitLoop_ok (memberIds : List ℕ) :
    ∀ (shares : List (ℕ × Dec)), (∀ p ∈ shares, p.1 ∈ memberIds) →
      explicitLoop memberIds shares =
        .ok (shares.map (fun p => (p.1, quantize2 p.2)),
             (shares.map (fun p => quantize2 p.2)).sum)
  | [], _ => rfl
  | (u, q) :: rest, hmem => by
    have hu : u ∈ memberIds := hmem (u, q) (List.mem_cons_self _ _)
    have ih := explicitLoop_ok memberIds rest
      (fun p hp => hmem p (List.mem_cons_of_mem _ hp))
    simp [explicitLoop, hu, ih]

/-- C4: when every supplied user id is a current group member, the explicit
path of `_replace_shares` succeeds iff the supplied amounts, each
individually quantized to 2 decimal places, sum exactly to the expense
amount, and aborts with the amount-mismatch message otherwise (so nothing
is committed, the `Except` error carrying no state); in particular explicit
shares `[{u1, 60.00}, {u2, 40.01}]` against an expense amount of 100.00
fail with the mismatch error. -/
theorem claim_C4 (memberIds : List ℕ) (amountC : ℤ) (shares : List (ℕ × Dec))
    (hmem : ∀ p ∈ shares, p.1 ∈ memberIds) :
    (okB (replace_shares memberIds amountC (some shares)) = true
        ↔ (shares.map (fun p => quantize2 p.2)).sum = amountC) ∧
    ((shares.map (fun p => quantize2 p.2)).sum ≠ amountC →
        replace_shares memberIds amountC (some shares)
          = .error "Sum of shares must equal the expense amount") ∧
    replace_shares [1, 2] 10000 (some [(1, ⟨6000, 2⟩), (2, ⟨4001, 2⟩)])
      = .error "Sum of shares must equal the expense amount" := by
  refine ⟨?_, ?_, by decide⟩
  · simp only [replace_shares, explicitLoop_ok memberIds shares hmem]
    by_cases h : (shares.map (fun p => quantize2 p.2)).sum = amountC
    · simp [h, okB]
    · simp [h, okB]
  · intro h
    simp only [replace_shares, explicitLoop_ok memberIds shares hmem]
    simp [h]

/-- Witness for C4 on the members `[1, 2]` with shares summing correctly
(`60.00 + 40.00 = 100.00`). -/
theorem claim_C4_witness :
    (okB (replace_shares [1, 2] 10000 (some [(1, ⟨6000, 2⟩), (2, ⟨4000, 2⟩)])) = true
        ↔ ([(1, (⟨6000, 2⟩ : Dec)), (2, ⟨4000, 2⟩)].map (fun p => quantize2 p.2)).sum = 10000) ∧
    (([(1, (⟨6000, 2⟩ : Dec)), (2, ⟨4000, 2⟩)].map (fun p => quantize2 p.2)).sum ≠ 10000 →
        replace_shares [1, 2] 10000 (some [(1, ⟨6000, 2⟩), (2, ⟨4000, 2⟩)])
          = .error "Sum of shares must equal the expense amount") ∧
    replace_shares [1, 2] 10000 (some [(1, ⟨6000, 2⟩), (2, ⟨4001, 2⟩)])
      = .error "Sum of shares must equal the expense amount" :=
  claim_C4 [1, 2] 10000 [(1, ⟨6000, 2⟩), (2, ⟨4000, 2⟩)] (by decide)

/-- C8: on an explicit-shares sequence that repeats a user id (all ids being
members, quantized amounts summing to the expense amount), `_replace_shares`
raises no duplicate-user error and performs no deduplication: it passes
every entry through to the installed share list. -/
theorem claim_C8 (memberIds : List ℕ) (amountC : ℤ) (shares : List (ℕ × Dec))
    (hdup : ¬ (shares.map Prod.fst).Nodup)
    (hmem : ∀ p ∈ shares, p.1 ∈ memberIds)
    (hsum : (shares.map (fun p => quantize2 p.2)).sum = amountC) :
    replace_shares memberIds amountC (some shares)
      = .ok (shares.map (fun p => (p.1, quantize2 p.2))) := by
  simp only [replace_shares, explicitLoop_ok memberIds shares hmem]
  simp [hsum]

/-- Witness for C8: user 1 appears twice (3.00 + 3.00 + 4.00 = 10.00). -/
theorem claim_C8_witness :
    replace_shares [1, 2] 1000 (some [(1, ⟨300, 2⟩), (1, ⟨300, 2⟩), (2, ⟨400, 2⟩)])
      = .ok [(1, 300), (1, 300), (2, 400)] :=
  claim_C8 [1, 2] 1000 [(1, ⟨300, 2⟩), (1, ⟨300, 2⟩), (2, ⟨400, 2⟩)]
    (by decide) (by decide) (by decide)

/-! # Creation-time versus update-time share validation -/

/-- A concrete store for the C7 update scenario: group 1, users 1 and 2 as
members, expense 10 of amount 10.00 equally split. -/
def c7db : DB :=
  ⟨[1, 2], [1], [⟨100, 1, 1, none⟩, ⟨101, 1, 2, none⟩],
   [⟨10, 1, none, "lunch", 1000, 0, [⟨11, 1, 500, false⟩, ⟨12, 2, 500, false⟩]⟩], 200⟩

/-- An update payload carrying only shares, one of them negative
(`-5.00 + 15.00 = 10.00`). -/
def c7patch : PatchData := ⟨none, none, none, none, some [(1, ⟨-500, 2⟩), (2, ⟨1500, 2⟩)]⟩

/-- C7: a creation payload whose explicit shares contain any non-positive
amount is rejected by `ExpenseCreateSchema.validate_shares` with the
positivity message before any state is touched (the schema runs before the
view body); the update path (`ExpenseUpdateSchema` has no such validator)
performs no per-share positivity check: a patch whose shares contain a
negative amount summing correctly to the expense amount succeeds and
installs the negative share. -/
theorem claim_C7 (db : DB) (gid : ℕ) (d : String) (q : Dec) (pb : Option ℕ)
    (shares : List (ℕ × Dec)) (hneg : ∃ p ∈ shares, p.2.m ≤ 0) :
    expense_create db gid d q pb (some shares) = .error "Share amount must be positive" ∧
    (expense_patch c7db 10 c7patch).toOption.map (fun db2 =>
        (findExpense db2 10).map (fun e =>
          e.shares.map (fun s => (s.user_id, s.amountC, s.is_settled))))
      = some (some [(1, -500, false), (2, 1500, false)]) := by
  constructor
  · have hany : (shares.any (fun p => decide (p.2.m ≤ 0))) = true := by
      rw [List.any_eq_true]
      obtain ⟨p, hp, hle⟩ := hneg
      exact ⟨p, hp, by simpa using hle⟩
    simp only [expense_create, Option.getD_some, hany]
    rfl
  · decide

/-- Witness for C7: a creation among members `[1, 2]` where user 1's share
is `-5.00`. -/
theorem claim_C7_witness :
    expense_create c7db 1 "snack" ⟨1000, 2⟩ none
        (some [(1, ⟨-500, 2⟩), (2, ⟨1500, 2⟩)])
      = .error "Share amount must be positive" ∧
    (expense_patch c7db 10 c7patch).toOption.map (fun db2 =>
        (findExpense db2 10).map (fun e =>
          e.shares.map (fun s => (s.user_id, s.amountC, s.is_settled))))
      = some (some [(1, -500, false), (2, 1500, false)]) :=
  claim_C7 c7db 1 "snack" ⟨1000, 2⟩ none [(1, ⟨-500, 2⟩), (2, ⟨1500, 2⟩)]
    ⟨(1, ⟨-500, 2⟩), by decide, by decide⟩

/-! # Empty-group behaviour of the allocator -/

lemma membersOf_eq_nil_find? (db : DB) (gid : ℕ) (h : membersOf db gid = []) (uid : ℕ) :
    db.members.find? (fun m => m.group_id == gid && m.user_id == uid) = none := by
  simp only [membersOf, List.map_eq_nil_iff, List.filter_eq_nil_iff] at h
  rw [List.find?_eq_none]
  intro m hm
  simp only [Bool.and_eq_true, not_and]
  intro hg
  exact absurd hg (h m hm)

/-- C6: the equal-split allocator succeeds exactly when the member-id list
is non-empty, and on the empty list aborts with the empty-group message;
consequently creating an expense without explicit shares in a group that
has no members aborts (with that message when no payer is supplied, with
some abort for any payer), and updating an expense's amount without shares
in a member-less group aborts too — an abort raises before `commit`, so no
expense or share state is persisted (errors carry no state in this
embedding). -/
theorem claim_C6 (amountC : ℤ) (ids : List ℕ) (db : DB) (gid : ℕ) (d : String)
    (q : Dec) (pb : Option ℕ) (eid : ℕ) (e : ExpenseRec) (p : PatchData)
    (hgrp : gid ∈ db.groups) (hmem : membersOf db gid = [])
    (he : findExpense db eid = some e) (hemem : membersOf db e.group_id = [])
    (hq1 : p.amount = some q) (hq2 : p.shares = none) :
    (okB (equal_split amountC ids) = true ↔ ids ≠ []) ∧
    equal_split amountC [] = .error "Cannot split expense: the group has no members" ∧
    expense_create db gid d q none none
      = .error "Cannot split expense: the group has no members" ∧
    okB (expense_create db gid d q pb none) = false ∧
    okB (expense_patch db eid p) = false := by
  refine ⟨?_, rfl, ?_, ?_, ?_⟩
  · by_cases hids : ids = []
    · subst hids; simp [equal_split, okB]
    · have : ids.length ≠ 0 := fun hl => hids (List.length_eq_zero.mp hl)
      simp [equal_split, this, okB, hids]
  · simp only [expense_create, Option.getD_none, List.any_nil, Bool.false_eq_true,
      if_false, hgrp, not_true_eq_false, ensure_user_in_group]
    simp only [replace_shares, hmem]
    rfl
  · cases pb with
    | none =>
        simp only [expense_create, Option.getD_none, List.any_nil, Bool.false_eq_true,
          if_false, hgrp, not_true_eq_false, ensure_user_in_group]
        simp only [replace_shares, hmem]
        rfl
    | some u =>
        simp only [expense_create, Option.getD_none, List.any_nil, Bool.false_eq_true,
          if_false, hgrp, not_true_eq_false, ensure_user_in_group,
          membersOf_eq_nil_find? db gid hmem u]
        rfl
  · simp only [expense_patch, he, resolvePayer]
    cases hpb : p.paid_by with
    | none =>
        simp only [hq1, hq2, replace_shares, hemem, equal_split, List.length_nil]
        rfl
    | some pbv =>
        cases pbv with
        | none =>
            simp only [ensure_user_in_group, Except.map]
            simp only [hq1, hq2, replace_shares, hemem, equal_split, List.length_nil]
            rfl
        | some u =>
            simp only [ensure_user_in_group,
              membersOf_eq_nil_find? db e.group_id hemem u,
              Option.isSome_none, Bool.false_eq_true, if_false, Except.map]
            rfl

/-- Witness for C6: a group with no members containing expense 10, an
amount-only patch payload. -/
theorem claim_C6_witness :
    (okB (equal_split 500 [1, 2]) = true ↔ ([1, 2] : List ℕ) ≠ []) ∧
    equal_split 500 [] = .error "Cannot split expense: the group has no members" ∧
    expense_create ⟨[1], [1], [], [⟨10, 1, none, "x", 700, 0, []⟩], 50⟩ 1 "y" ⟨900, 2⟩ none none
      = .error "Cannot split expense: the group has no members" ∧
    okB (expense_create ⟨[1], [1], [], [⟨10, 1, none, "x", 700, 0, []⟩], 50⟩ 1 "y" ⟨900, 2⟩ none none) = false ∧
    okB (expense_patch ⟨[1], [1], [], [⟨10, 1, none, "x", 700, 0, []⟩], 50⟩ 10
          ⟨none, none, none, some ⟨900, 2⟩, none⟩) = false :=
  claim_C6 500 [1, 2] ⟨[1], [1], [], [⟨10, 1, none, "x", 700, 0, []⟩], 50⟩ 1 "y"
    ⟨900, 2⟩ none 10 ⟨10, 1, none, "x", 700, 0, []⟩ ⟨none, none, none, some ⟨900, 2⟩, none⟩
    (by decide) (by decide) (by decide) (by decide) (by decide) (by decide)

/-! # Settlement -/

lemma find?_map_pres {α : Type} (key : α → ℕ) (F : α → α)
    (hid : ∀ x, key (F x) = key x) (k : ℕ) (l : List α) :
    (l.map F).find? (fun x => key x == k) = (l.find? (fun x => key x == k)).map F := by
  have hp : ((fun x => key x == k) ∘ F) = (fun x => key x == k) :=
    funext (fun x => by simp [Function.comp, hid])
  rw [List.find?_map, hp]

lemma settleFn_id (sid : ℕ) (sh : ShareRec) : (settleFn sid sh).id = sh.id := by
  unfold settleFn
  split_ifs <;> rfl

lemma settleFn_idem (sid : ℕ) (sh : ShareRec) :
    settleFn sid (settleFn sid sh) = settleFn sid sh := by
  by_cases h : sh.id == sid <;> simp [settleFn, h]

lemma settleExp_idem (sid : ℕ) (x : ExpenseRec) :
    settleExp sid (settleExp sid x) = settleExp sid x := by
  simp only [settleExp, List.map_map]
  congr 1
  exact List.map_congr_left (fun sh _ => settleFn_idem sid sh)

/-- C9: settling an existing share of an existing expense succeeds, and the
operation is idempotent: re-applying settle to the resulting state succeeds
without error and returns exactly the same state, in which the share is
marked settled. -/
theorem claim_C9 (db : DB) (eid sid : ℕ) (e : ExpenseRec) (sh : ShareRec)
    (he : findExpense db eid = some e) (hsh : sh ∈ e.shares) (hid : sh.id = sid) :
    ∃ db', settle_share db eid sid = .ok db' ∧
      settle_share db' eid sid = .ok db' ∧
      ∃ e', findExpense db' eid = some e' ∧
        ∃ sh', sh' ∈ e'.shares ∧ sh'.id = sid ∧ sh'.is_settled = true := by
  have hfind : (e.shares.find? (fun s => s.id == sid)).isSome = true := by
    rw [List.find?_isSome]
    exact ⟨sh, hsh, by simp [hid]⟩
  have hpres : ∀ x : ExpenseRec,
      ((fun x => if x.id == eid then settleExp sid x else x) x).id = x.id := by
    intro x
    by_cases h : x.id == eid <;> simp [h, settleExp]
  have hfe' : findExpense (updateExpense db eid (settleExp sid) db.nextId) eid
      = some (settleExp sid e) := by
    simp only [findExpense, updateExpense] at he ⊢
    have hcond := List.find?_some he
    rw [find?_map_pres ExpenseRec.id _ hpres eid, he, Option.map_some']
    simp only [hcond, if_true]
  have hfind2 : ((settleExp sid e).shares.find? (fun s => s.id == sid)).isSome = true := by
    simp only [settleExp]
    rw [find?_map_pres ShareRec.id (settleFn sid) (settleFn_id sid) sid]
    simpa using hfind
  refine ⟨updateExpense db eid (settleExp sid) db.nextId, ?_, ?_, ?_⟩
  · simp only [settle_share, he]
    rw [if_pos hfind]
  · simp only [settle_share, hfe']
    rw [if_pos hfind2]
    have hexp : ((db.expenses.map
          (fun x => if x.id == eid then settleExp sid x else x)).map
          (fun x => if x.id == eid then settleExp sid x else x))
        = db.expenses.map (fun x => if x.id == eid then settleExp sid x else x) := by
      rw [List.map_map]
      apply List.map_congr_left
      intro x _
      by_cases h : x.id == eid
      · simp only [Function.comp, h, if_true, if_pos]
        rw [if_pos (by simpa [settleExp] using h), settleExp_idem]
      · simp [Function.comp, h]
    simp only [updateExpense, hexp]
  · refine ⟨settleExp sid e, hfe', settleFn sid sh, List.mem_map_of_mem _ hsh, ?_, ?_⟩
    · rw [settleFn_id]; exact hid
    · simp [settleFn, hid]

/-- Witness for C9: one expense with one share. -/
theorem claim_C9_witness :
    ∃ db', settle_share ⟨[1], [1], [⟨100, 1, 1, none⟩],
        [⟨10, 1, none, "x", 500, 0, [⟨11, 1, 500, false⟩]⟩], 200⟩ 10 11 = .ok db' ∧
      settle_share db' 10 11 = .ok db' ∧
      ∃ e', findExpense db' 10 = some e' ∧
        ∃ sh', sh' ∈ e'.shares ∧ sh'.id = 11 ∧ sh'.is_settled = true :=
  claim_C9 ⟨[1], [1], [⟨100, 1, 1, none⟩],
      [⟨10, 1, none, "x", 500, 0, [⟨11, 1, 500, false⟩]⟩], 200⟩ 10 11
    ⟨10, 1, none, "x", 500, 0, [⟨11, 1, 500, false⟩]⟩ ⟨11, 1, 500, false⟩
    (by decide) (by decide) (by decide)

/-! # Frame property of metadata-only updates -/

lemma applyDesc_id (p : PatchData) (e : ExpenseRec) : (applyDesc p e).id = e.id := by
  cases hd : p.description <;> simp only [applyDesc, hd]
  split_ifs <;> rfl

lemma applyDesc_shares (p : PatchData) (e : ExpenseRec) :
    (applyDesc p e).shares = e.shares := by
  cases hd : p.description <;> simp only [applyDesc, hd]
  split_ifs <;> rfl

lemma applyDate_id (p : PatchData) (e : ExpenseRec) : (applyDate p e).id = e.id := by
  cases hd : p.date <;> simp only [applyDate, hd]

lemma applyDate_shares (p : PatchData) (e : ExpenseRec) :
    (applyDate p e).shares = e.shares := by
  cases hd : p.date <;> simp only [applyDate, hd]

/-- C10: an update whose payload contains neither `amount` nor `shares`
(description, payer, date only) leaves every expense's share rows entirely
unchanged — same ids, same user ids, same amounts, same settled flags
(stated per expense id over a store with distinct expense primary keys). -/
theorem claim_C10 (db : DB) (eid : ℕ) (p : PatchData) (db' : DB)
    (hids : (db.expenses.map (fun e => e.id)).Nodup)
    (hamount : p.amount = none) (hshares : p.shares = none)
    (hok : expense_patch db eid p = .ok db') :
    db'.expenses.map (fun e => (e.id, e.shares)) = db.expenses.map (fun e => (e.id, e.shares)) := by
  cases hfe : findExpense db eid with
  | none => rw [expense_patch.eq_def, hfe] at hok; simp at hok
  | some e =>
    cases hrp : resolvePayer db p e with
    | error m => rw [expense_patch.eq_def, hfe] at hok; simp [hrp] at hok
    | ok pb' =>
      rw [expense_patch.eq_def, hfe] at hok
      simp only [hrp, hamount, hshares, Except.ok.injEq] at hok
      subst hok
      simp only [updateExpense, List.map_map]
      apply List.map_congr_left
      intro x hx
      by_cases h : x.id == eid
      · have hpe := List.find?_some hfe
        have hxe : x = e := by
          refine List.inj_on_of_nodup_map hids hx (List.mem_of_find?_eq_some hfe) ?_
          have h1 : x.id = eid := eq_of_beq h
          have h2 : e.id = eid := eq_of_beq hpe
          simp [h1, h2]
        subst hxe
        simp only [Function.comp, h, if_true, if_pos, Prod.mk.injEq]
        constructor
        · rw [applyDate_id]
          exact (applyDesc_id p x).symm ▸ rfl
        · rw [applyDate_shares]
          exact (applyDesc_shares p x).symm ▸ rfl
      · simp [Function.comp, h]

/-- Witness for C10: a description-only patch on a two-expense store leaves
both expenses' share rows untouched. -/
theorem claim_C10_witness :
    (DB.expenses ⟨[1], [1], [⟨100, 1, 1, none⟩],
        [⟨10, 1, none, "renamed", 500, 0, [⟨11, 1, 500, true⟩]⟩,
         ⟨20, 1, some 1, "y", 700, 0, [⟨21, 1, 700, false⟩]⟩], 200⟩).map
        (fun e => (e.id, e.shares))
      = (DB.expenses ⟨[1], [1], [⟨100, 1, 1, none⟩],
        [⟨10, 1, none, "x", 500, 0, [⟨11, 1, 500, true⟩]⟩,
         ⟨20, 1, some 1, "y", 700, 0, [⟨21, 1, 700, false⟩]⟩], 200⟩).map
        (fun e => (e.id, e.shares)) :=
  claim_C10 ⟨[1], [1], [⟨100, 1, 1, none⟩],
      [⟨10, 1, none, "x", 500, 0, [⟨11, 1, 500, true⟩]⟩,
       ⟨20, 1, some 1, "y", 700, 0, [⟨21, 1, 700, false⟩]⟩], 200⟩ 10
    ⟨some "renamed", none, none, none, none⟩
    ⟨[1], [1], [⟨100, 1, 1, none⟩],
      [⟨10, 1, none, "renamed", 500, 0, [⟨11, 1, 500, true⟩]⟩,
       ⟨20, 1, some 1, "y", 700, 0, [⟨21, 1, 700, false⟩]⟩], 200⟩
    (by decide) (by decide) (by decide) (by decide)

/-! # Share replacement on update -/

lemma mkShares_triples : ∀ (st : ℕ) (l : List (ℕ × ℤ)),
    (mkShares st l).map (fun s => (s.user_id, s.amountC, s.is_settled))
      = l.map (fun pr => (pr.1, pr.2, false))
  | _, [] => rfl
  | st, p :: rest => by
    simp [mkShares, mkShares_triples (st + 1) rest]

lemma explicitLoop_shape (m : List ℕ) : ∀ (s : List (ℕ × Dec)) (l : List (ℕ × ℤ)) (t : ℤ),
    explicitLoop m s = .ok (l, t) →
      l = s.map (fun p => (p.1, quantize2 p.2)) ∧
      t = (s.map (fun p => quantize2 p.2)).sum
  | [], l, t => by
    intro h
    simp only [explicitLoop, Except.ok.injEq, Prod.mk.injEq] at h
    simp [← h.1, ← h.2]
  | (u, q) :: rest, l, t => by
    intro h
    simp only [explicitLoop] at h
    by_cases hu : u ∈ m
    · rw [if_pos hu] at h
      cases hrec : explicitLoop m rest with
      | error msg => rw [hrec] at h; cases h
      | ok pr =>
        obtain ⟨l₀, t₀⟩ := pr
        rw [hrec] at h
        simp only [Except.ok.injEq, Prod.mk.injEq] at h
        obtain ⟨ih1, ih2⟩ := explicitLoop_shape m rest l₀ t₀ hrec
        simp [← h.1, ← h.2, ih1, ih2]
    · rw [if_neg hu] at h
      cases h

lemma replace_shares_some_shape (m : List ℕ) (a : ℤ) (s : List (ℕ × Dec))
    (l : List (ℕ × ℤ)) (h : replace_shares m a (some s) = .ok l) :
    l = s.map (fun p => (p.1, quantize2 p.2)) := by
  cases hrec : explicitLoop m s with
  | error msg => simp only [replace_shares, hrec] at h; cases h
  | ok pr =>
    obtain ⟨l₀, t₀⟩ := pr
    simp only [replace_shares, hrec] at h
    by_cases ht : t₀ ≠ a
    · rw [if_pos ht] at h; cases h
    · rw [if_neg ht] at h
      injection h with h2
      rw [← h2]
      exact (explicitLoop_shape m s l₀ t₀ hrec).1

/-- C5: on a successful `PATCH /expenses/{id}`, (i) if the payload carries
`amount` but no `shares`, the expense's entire share set is replaced by a
freshly computed equal split of the new amount over the group's current
members, every installed share carrying `is_settled = false`; (ii) if the
payload carries `shares`, the entire prior share set is replaced by exactly
the supplied entries (quantized to cents), every installed share carrying
`is_settled = false` — settlement flags are never preserved across a
reconciliation. -/
theorem claim_C5 (db : DB) (eid : ℕ) (p : PatchData) (db' : DB) (e : ExpenseRec)
    (he : findExpense db eid = some e)
    (hok : expense_patch db eid p = .ok db') :
    (∀ q, p.amount = some q → p.shares = none →
      ∃ l, equal_split (quantize2 q) (membersOf db e.group_id) = .ok l ∧
        ∃ e', findExpense db' eid = some e' ∧ e'.amountC = quantize2 q ∧
          e'.shares.map (fun sh => (sh.user_id, sh.amountC, sh.is_settled))
            = l.map (fun pr => (pr.1, pr.2, false))) ∧
    (∀ s, p.shares = some s →
      ∃ e', findExpense db' eid = some e' ∧
        e'.shares.map (fun sh => (sh.user_id, sh.amountC, sh.is_settled))
          = s.map (fun pr => (pr.1, quantize2 pr.2, false))) := by
  have hpe := List.find?_some he
  have heid : e.id = eid := eq_of_beq hpe
  cases hrp : resolvePayer db p e with
  | error msg =>
    rw [expense_patch.eq_def, he] at hok
    simp [hrp] at hok
  | ok pb' =>
    constructor
    · intro q hq hs
      rw [expense_patch.eq_def, he] at hok
      simp only [hrp, hq, hs] at hok
      cases hrs : replace_shares (membersOf db e.group_id) (quantize2 q) none with
      | error msg => rw [hrs] at hok; cases hok
      | ok l =>
        rw [hrs] at hok
        simp only [Except.ok.injEq] at hok
        subst hok
        refine ⟨l, by simpa [replace_shares] using hrs,
          { applyDate p { applyDesc p e with paid_by := pb' } with
              amountC := quantize2 q, shares := mkShares db.nextId l }, ?_, rfl,
          mkShares_triples db.nextId l⟩
        have hpres : ∀ x : ExpenseRec,
            ((fun x => if x.id == eid
                then (fun _ => { applyDate p { applyDesc p e with paid_by := pb' } with
                        amountC := quantize2 q,
                        shares := mkShares db.nextId l }) x
                else x) x).id = x.id := by
          intro x
          by_cases h : x.id == eid
          · simp only [h, if_true, if_pos]
            rw [applyDate_id]
            show (applyDesc p e).id = x.id
            rw [applyDesc_id, heid, eq_of_beq h]
          · simp [h]
        simp only [findExpense, updateExpense] at he ⊢
        rw [find?_map_pres ExpenseRec.id _ hpres eid, he, Option.map_some']
        simp only [hpe, if_true]
    · intro s hs
      rw [expense_patch.eq_def, he] at hok
      cases hq : p.amount with
      | some q =>
        simp only [hrp, hq, hs] at hok
        cases hrs : replace_shares (membersOf db e.group_id) (quantize2 q) (some s) with
        | error msg => rw [hrs] at hok; cases hok
        | ok l =>
          rw [hrs] at hok
          simp only [Except.ok.injEq] at hok
          subst hok
          refine ⟨{ applyDate p { applyDesc p e with paid_by := pb' } with
              amountC := quantize2 q, shares := mkShares db.nextId l }, ?_, ?_⟩
          · have hpres : ∀ x : ExpenseRec,
                ((fun x => if x.id == eid
                    then (fun _ => { applyDate p { applyDesc p e with paid_by := pb' } with
                            amountC := quantize2 q,
                            shares := mkShares db.nextId l }) x
                    else x) x).id = x.id := by
              intro x
              by_cases h : x.id == eid
              · simp only [h, if_true, if_pos]
                rw [applyDate_id]
                show (applyDesc p e).id = x.id
                rw [applyDesc_id, heid, eq_of_beq h]
              · simp [h]
            simp only [findExpense, updateExpense] at he ⊢
            rw [find?_map_pres ExpenseRec.id _ hpres eid, he, Option.map_some']
            simp only [hpe, if_true]
          · show (mkShares db.nextId l).map _ = _
            rw [mkShares_triples, replace_shares_some_shape _ _ _ _ hrs, List.map_map]
            rfl
      | none =>
        simp only [hrp, hq, hs] at hok
        cases hrs : replace_shares (membersOf db e.group_id)
            (applyDate p { applyDesc p e with paid_by := pb' }).amountC (some s) with
        | error msg => rw [hrs] at hok; cases hok
        | ok l =>
          rw [hrs] at hok
          simp only [Except.ok.injEq] at hok
          subst hok
          refine ⟨{ applyDate p { applyDesc p e with paid_by := pb' } with
              shares := mkShares db.nextId l }, ?_, ?_⟩
          · have hpres : ∀ x : ExpenseRec,
                ((fun x => if x.id == eid
                    then (fun _ => { applyDate p { applyDesc p e with paid_by := pb' } with
                            shares := mkShares db.nextId l }) x
                    else x) x).id = x.id := by
              intro x
              by_cases h : x.id == eid
              · simp only [h, if_true, if_pos]
                rw [applyDate_id]
                show (applyDesc p e).id = x.id
                rw [applyDesc_id, heid, eq_of_beq h]
              · simp [h]
            simp only [findExpense, updateExpense] at he ⊢
            rw [find?_map_pres ExpenseRec.id _ hpres eid, he, Option.map_some']
            simp only [hpe, if_true]
          · show (mkShares db.nextId l).map _ = _
            rw [mkShares_triples, replace_shares_some_shape _ _ _ _ hrs, List.map_map]
            rfl

/-- The C5 witness store: group 1 with members 1 and 2, expense 10 of
amount 10.00 split 5.00 / 5.00, one share already settled. -/
def c5db : DB :=
  ⟨[1, 2], [1], [⟨100, 1, 1, none⟩, ⟨101, 1, 2, none⟩],
   [⟨10, 1, none, "t", 1000, 0, [⟨11, 1, 500, true⟩, ⟨12, 2, 500, false⟩]⟩], 200⟩

/-- The amount-only payload `{"amount": "9.00"}`. -/
def c5patch : PatchData := ⟨none, none, none, some ⟨900, 2⟩, none⟩

/-- The store after the C5 witness patch: amount 9.00, equal split 4.50 /
4.50 freshly installed, settlement flags reset. -/
def c5db2 : DB :=
  ⟨[1, 2], [1], [⟨100, 1, 1, none⟩, ⟨101, 1, 2, none⟩],
   [⟨10, 1, none, "t", 900, 0, [⟨200, 1, 450, false⟩, ⟨201, 2, 450, false⟩]⟩], 202⟩

/-- Witness for C5: updating only the amount of expense 10 recomputes the
equal split (discarding a previously settled flag). -/
theorem claim_C5_witness :
    (∀ q, c5patch.amount = some q → c5patch.shares = none →
      ∃ l, equal_split (quantize2 q)
            (membersOf c5db (ExpenseRec.group_id ⟨10, 1, none, "t", 1000, 0,
              [⟨11, 1, 500, true⟩, ⟨12, 2, 500, false⟩]⟩)) = .ok l ∧
        ∃ e', findExpense c5db2 10 = some e' ∧ e'.amountC = quantize2 q ∧
          e'.shares.map (fun sh => (sh.user_id, sh.amountC, sh.is_settled))
            = l.map (fun pr => (pr.1, pr.2, false))) ∧
    (∀ s, c5patch.shares = some s →
      ∃ e', findExpense c5db2 10 = some e' ∧
        e'.shares.map (fun sh => (sh.user_id, sh.amountC, sh.is_settled))
          = s.map (fun pr => (pr.1, quantize2 pr.2, false))) :=
  claim_C5 c5db 10 c5patch c5db2
    ⟨10, 1, none, "t", 1000, 0, [⟨11, 1, 500, true⟩, ⟨12, 2, 500, false⟩]⟩
    (by decide) (by decide)

/-! # The share-conservation invariant -/

/-- Sum of an expense's share amounts (cents). -/
def sharesSum (e : ExpenseRec) : ℤ := (e.shares.map (fun s => s.amountC)).sum

/-- Every expense's shares sum exactly to its amount. -/
def SharesInv (db : DB) : Prop := ∀ e ∈ db.expenses, sharesSum e = e.amountC

instance sharesInvDecidable (db : DB) : Decidable (SharesInv db) :=
  inferInstanceAs (Decidable (∀ e ∈ db.expenses, sharesSum e = e.amountC))

lemma mkShares_amounts : ∀ (st : ℕ) (l : List (ℕ × ℤ)),
    (mkShares st l).map (fun s => s.amountC) = l.map Prod.snd
  | _, [] => rfl
  | st, p :: rest => by simp [mkShares, mkShares_amounts (st + 1) rest]

lemma equal_split_sum (amountC : ℤ) (ids : List ℕ) (l : List (ℕ × ℤ))
    (hnn : 0 ≤ amountC) (h : equal_split amountC ids = .ok l) :
    (l.map Prod.snd).sum = amountC := by
  simp only [equal_split] at h
  by_cases hn : ids.length = 0
  · rw [if_pos hn] at h; cases h
  · rw [if_neg hn] at h
    injection h with h2
    rw [← h2]
    have hnpos : (0 : ℤ) < (ids.length : ℤ) := by
      exact_mod_cast Nat.pos_of_ne_zero hn
    have htm := Int.tdiv_add_tmod amountC (ids.length : ℤ)
    have hrem : amountC - amountC.tdiv (ids.length : ℤ) * (ids.length : ℤ)
        = Int.tmod amountC (ids.length : ℤ) := by linarith
    have h0 : 0 ≤ Int.tmod amountC (ids.length : ℤ) := Int.tmod_nonneg _ hnn
    have hlt : Int.tmod amountC (ids.length : ℤ) < (ids.length : ℤ) :=
      Int.tmod_lt_of_pos amountC hnpos
    rw [splitLoop_sum _ _ _ (hrem ▸ h0) (by rw [hrem]; omega)]
    linarith

lemma replace_shares_sum (m : List ℕ) (a : ℤ) (inp : Option (List (ℕ × Dec)))
    (l : List (ℕ × ℤ)) (hnn : inp = none → 0 ≤ a)
    (h : replace_shares m a inp = .ok l) :
    (l.map Prod.snd).sum = a := by
  cases inp with
  | none => exact equal_split_sum a m l (hnn rfl) h
  | some s =>
    cases hrec : explicitLoop m s with
    | error msg => simp only [replace_shares, hrec] at h; cases h
    | ok pr =>
      obtain ⟨l₀, t₀⟩ := pr
      simp only [replace_shares, hrec] at h
      by_cases ht : t₀ ≠ a
      · rw [if_pos ht] at h; cases h
      · rw [if_neg ht] at h
        injection h with h2
        obtain ⟨hl, hsum⟩ := explicitLoop_shape m s l₀ t₀ hrec
        rw [← h2, hl, List.map_map]
        have : t₀ = a := not_not.mp ht
        rw [← this, hsum]
        rfl

lemma applyDesc_amountC (p : PatchData) (e : ExpenseRec) :
    (applyDesc p e).amountC = e.amountC := by
  cases hd : p.description <;> simp only [applyDesc, hd]
  split_ifs <;> rfl

lemma applyDate_amountC (p : PatchData) (e : ExpenseRec) :
    (applyDate p e).amountC = e.amountC := by
  cases hd : p.date <;> simp only [applyDate, hd]

lemma expense_create_inv (db : DB) (gid : ℕ) (d : String) (q : Dec) (pb : Option ℕ)
    (shIn : Option (List (ℕ × Dec))) (db' : DB)
    (hnn : shIn = none → 0 ≤ quantize2 q)
    (h : expense_create db gid d q pb shIn = .ok db')
    (hinv : SharesInv db) : SharesInv db' := by
  simp only [expense_create] at h
  by_cases hval : ((shIn.getD []).any fun p => decide (p.2.m ≤ 0)) = true
  · rw [if_pos hval] at h; cases h
  · rw [if_neg hval] at h
    by_cases hg : gid ∉ db.groups
    · rw [if_pos hg] at h; cases h
    · rw [if_neg hg] at h
      cases hens : ensure_user_in_group db gid pb with
      | error msg => rw [hens] at h; cases h
      | ok u =>
        rw [hens] at h
        cases hrs : replace_shares (membersOf db gid) (quantize2 q) shIn with
        | error msg => rw [hrs] at h; cases h
        | ok l =>
          rw [hrs] at h
          simp only [Except.ok.injEq] at h
          subst h
          intro x hx
          simp only [List.mem_append, List.mem_singleton] at hx
          rcases hx with hx | hx
          · exact hinv x hx
          · subst hx
            show ((mkShares (db.nextId + 1) l).map (fun s => s.amountC)).sum = _
            rw [mkShares_amounts]
            exact replace_shares_sum _ _ _ _ hnn hrs

lemma expense_patch_inv (db : DB) (eid : ℕ) (p : PatchData) (db' : DB)
    (hnn : ∀ q, p.amount = some q → p.shares = none → 0 ≤ quantize2 q)
    (h : expense_patch db eid p = .ok db') (hinv : SharesInv db) : SharesInv db' := by
  cases hfe : findExpense db eid with
  | none => rw [expense_patch.eq_def, hfe] at h; cases h
  | some e =>
    have hesum : sharesSum e = e.amountC := hinv e (List.mem_of_find?_eq_some hfe)
    rw [expense_patch.eq_def, hfe] at h
    cases hrp : resolvePayer db p e with
    | error msg => simp [hrp] at h
    | ok pb' =>
      cases hq : p.amount with
      | none =>
        cases hs : p.shares with
        | none =>
          simp only [hrp, hq, hs, Except.ok.injEq] at h
          subst h
          intro x hx
          obtain ⟨y, hy, rfl⟩ := List.mem_map.mp hx
          by_cases hxy : (y.id == eid) = true
          · simp only [hxy, if_true]
            show ((applyDate p { applyDesc p e with paid_by := pb' }).shares.map
                (fun s => s.amountC)).sum
              = (applyDate p { applyDesc p e with paid_by := pb' }).amountC
            rw [applyDate_shares, applyDate_amountC]
            show (((applyDesc p e).shares).map (fun s => s.amountC)).sum
              = (applyDesc p e).amountC
            rw [applyDesc_shares, applyDesc_amountC]
            exact hesum
          · simp only [hxy, if_false]
            exact hinv y hy
        | some s =>
          simp only [hrp, hq, hs] at h
          cases hrs : replace_shares (membersOf db e.group_id)
              (applyDate p { applyDesc p e with paid_by := pb' }).amountC (some s) with
          | error msg => rw [hrs] at h; cases h
          | ok l =>
            rw [hrs] at h
            simp only [Except.ok.injEq] at h
            subst h
            intro x hx
            obtain ⟨y, hy, rfl⟩ := List.mem_map.mp hx
            by_cases hxy : (y.id == eid) = true
            · simp only [hxy, if_true]
              show ((mkShares db.nextId l).map (fun s => s.amountC)).sum
                = (applyDate p { applyDesc p e with paid_by := pb' }).amountC
              rw [mkShares_amounts]
              exact replace_shares_sum _ _ _ _ (fun hcon => by cases hcon) hrs
            · simp only [hxy, if_false]
              exact hinv y hy
      | some q2 =>
        cases hs : p.shares with
        | none =>
          simp only [hrp, hq, hs] at h
          cases hrs : replace_shares (membersOf db e.group_id) (quantize2 q2) none with
          | error msg => rw [hrs] at h; cases h
          | ok l =>
            rw [hrs] at h
            simp only [Except.ok.injEq] at h
            subst h
            intro x hx
            obtain ⟨y, hy, rfl⟩ := List.mem_map.mp hx
            by_cases hxy : (y.id == eid) = true
            · simp only [hxy, if_true]
              show ((mkShares db.nextId l).map (fun s => s.amountC)).sum = quantize2 q2
              rw [mkShares_amounts]
              exact replace_shares_sum _ _ _ _ (fun _ => hnn q2 hq hs) hrs
            · simp only [hxy, if_false]
              exact hinv y hy
        | some s =>
          simp only [hrp, hq, hs] at h
          cases hrs : replace_shares (membersOf db e.group_id) (quantize2 q2) (some s) with
          | error msg => rw [hrs] at h; cases h
          | ok l =>
            rw [hrs] at h
            simp only [Except.ok.injEq] at h
            subst h
            intro x hx
            obtain ⟨y, hy, rfl⟩ := List.mem_map.mp hx
            by_cases hxy : (y.id == eid) = true
            · simp only [hxy, if_true]
              show ((mkShares db.nextId l).map (fun s => s.amountC)).sum = quantize2 q2
              rw [mkShares_amounts]
              exact replace_shares_sum _ _ _ _ (fun hcon => by cases hcon) hrs
            · simp only [hxy, if_false]
              exact hinv y hy

lemma settle_share_inv (db : DB) (eid sid : ℕ) (db' : DB)
    (h : settle_share db eid sid = .ok db') (hinv : SharesInv db) : SharesInv db' := by
  cases hfe : findExpense db eid with
  | none => simp only [settle_share, hfe] at h; cases h
  | some e =>
    simp only [settle_share, hfe] at h
    by_cases hf : (e.shares.find? (fun sh => sh.id == sid)).isSome = true
    · rw [if_pos hf] at h
      simp only [Except.ok.injEq] at h
      subst h
      intro x hx
      obtain ⟨y, hy, rfl⟩ := List.mem_map.mp hx
      by_cases hxy : (y.id == eid) = true
      · simp only [hxy, if_true]
        show ((settleExp sid y).shares.map (fun s => s.amountC)).sum
          = (settleExp sid y).amountC
        have hsm : (settleExp sid y).shares.map (fun s => s.amountC)
            = y.shares.map (fun s => s.amountC) := by
          simp only [settleExp, List.map_map]
          exact List.map_congr_left (fun sh _ => by
            by_cases hz : (sh.id == sid) = true <;> simp [Function.comp, settleFn, hz])
        rw [hsm]
        exact hinv y hy
      · simp only [hxy, if_false]
        exact hinv y hy
    · rw [if_neg hf] at h; cases h

lemma member_add_inv (db : DB) (gid uid : ℕ) (role : Option String) (db' : DB)
    (h : member_add db gid uid role = .ok db') (hinv : SharesInv db) : SharesInv db' := by
  simp only [member_add] at h
  by_cases h1 : gid ∉ db.groups
  · rw [if_pos h1] at h; cases h
  · rw [if_neg h1] at h
    by_cases h2 : uid ∉ db.users
    · rw [if_pos h2] at h; cases h
    · rw [if_neg h2] at h
      by_cases h3 : (db.members.find? fun m => m.group_id == gid && m.user_id == uid).isSome = true
      · rw [if_pos h3] at h; cases h
      · rw [if_neg h3] at h
        simp only [Except.ok.injEq] at h
        subst h
        exact hinv

lemma member_remove_inv (db : DB) (gid mid : ℕ) (db' : DB)
    (h : member_remove db gid mid = .ok db') (hinv : SharesInv db) : SharesInv db' := by
  simp only [member_remove] at h
  cases hfm : db.members.find? (fun m => m.id == mid && m.group_id == gid) with
  | none => rw [hfm] at h; cases h
  | some m =>
    rw [hfm] at h
    simp only [Except.ok.injEq] at h
    subst h
    exact hinv

/-- One successful public mutating operation, with the amount supplied to an
equal-split recomputation path (create or amount-update without explicit
shares) restricted to be non-negative. -/
inductive Step : DB → DB → Prop where
  | create (db : DB) (gid : ℕ) (d : String) (q : Dec) (pb : Option ℕ)
      (shIn : Option (List (ℕ × Dec))) (db' : DB)
      (hnn : shIn = none → 0 ≤ quantize2 q)
      (h : expense_create db gid d q pb shIn = .ok db') : Step db db'
  | patch (db : DB) (eid : ℕ) (p : PatchData) (db' : DB)
      (hnn : ∀ q, p.amount = some q → p.shares = none → 0 ≤ quantize2 q)
      (h : expense_patch db eid p = .ok db') : Step db db'
  | settle (db : DB) (eid sid : ℕ) (db' : DB)
      (h : settle_share db eid sid = .ok db') : Step db db'
  | addMember (db : DB) (gid uid : ℕ) (role : Option String) (db' : DB)
      (h : member_add db gid uid role = .ok db') : Step db db'
  | removeMember (db : DB) (gid mid : ℕ) (db' : DB)
      (h : member_remove db gid mid = .ok db') : Step db db'

lemma step_preserves_inv {a b : DB} (hs : Step a b) (hinv : SharesInv a) : SharesInv b := by
  cases hs with
  | create gid d q pb shIn db2 hnn h => exact expense_create_inv a gid d q pb shIn b hnn h hinv
  | patch eid p db2 hnn h => exact expense_patch_inv a eid p b hnn h hinv
  | settle eid sid db2 h => exact settle_share_inv a eid sid b h hinv
  | addMember gid uid role db2 h => exact member_add_inv a gid uid role b h hinv
  | removeMember gid mid db2 h => exact member_remove_inv a gid mid b h hinv

/-- C2 (amended): starting from any state satisfying the share-conservation
invariant, every state reachable through the public mutating operations
(expense create, expense update, share settle, member add/remove) satisfies
it too — for every expense, the sum of its shares' amounts equals the
expense's amount exactly — provided every amount supplied to a create or
amount-update that omits explicit shares is non-negative.  (The source has
no user-delete endpoint; and without the non-negativity restriction the
claim is false, see the counterexample.) -/
theorem claim_C2 (db db' : DB) (hinv : SharesInv db)
    (hsteps : Relation.ReflTransGen Step db db') : SharesInv db' := by
  induction hsteps with
  | refl => exact hinv
  | tail _ hstep ih => exact step_preserves_inv hstep ih

/-- Seed store for C2: group 1 with members 1, 2, 3 and no expenses. -/
def c2seed : DB :=
  ⟨[1, 2, 3], [1], [⟨100, 1, 1, none⟩, ⟨101, 1, 2, none⟩, ⟨102, 1, 3, none⟩], [], 200⟩

/-- The store after creating a 10.00 expense with no explicit shares. -/
def c2w : DB :=
  match expense_create c2seed 1 "d" ⟨1000, 2⟩ none none with
  | .ok d => d
  | .error _ => c2seed

/-- Witness for C2: one equal-split creation of 10.00 over three members
preserves the invariant. -/
theorem claim_C2_witness : SharesInv c2w :=
  claim_C2 c2seed c2w (by decide)
    (Relation.ReflTransGen.single
      (Step.create c2seed 1 "d" ⟨1000, 2⟩ none none c2w (fun _ => by decide) (by decide)))

/-- The store after creating a `-10.00` expense with no explicit shares. -/
def c2bad : DB :=
  match expense_create c2seed 1 "dinner" ⟨-10, 0⟩ none none with
  | .ok d => d
  | .error _ => c2seed

/-- Counterexample to C2 as stated: creating an expense of amount `-10.00`
(no validation rejects a negative amount) in a group of three members
completes successfully, yet the installed shares are three at `-3.33`
(`ROUND_DOWN` truncates toward zero and the leftover count is negative, so
no cent is redistributed), summing to `-9.99 ≠ -10.00`: the reachable state
violates the invariant. -/
theorem claim_C2_counterexample :
    expense_create c2seed 1 "dinner" ⟨-10, 0⟩ none none = .ok c2bad ∧
    (c2bad.expenses.map (fun e => (e.amountC, sharesSum e))) = [(-1000, -999)] ∧
    ¬ SharesInv c2bad := by
  refine ⟨by decide, by decide, ?_⟩
  decide

/-! # Balance aggregation -/

/-- Fold a list of (user, signed cents) events into the net dict, exactly as
the two nested loops of `GroupBalances.get` do. -/
def processEvents (net : List (ℕ × ℤ)) (events : List (ℕ × ℤ)) : List (ℕ × ℤ) :=
  events.foldl (fun n ev => updNet n ev.1 ev.2) net

/-- The total delta a list of events applies to one user. -/
def evSum (events : List (ℕ × ℤ)) (uid : ℕ) : ℤ :=
  ((events.filter (fun ev => ev.1 == uid)).map Prod.snd).sum

/-- The single credit event a truthy payer receives. -/
def payerEvents (pb : Option ℕ) (amt : ℤ) : List (ℕ × ℤ) :=
  match pb with
  | some p => if p ≠ 0 then [(p, amt)] else []
  | none => []

/-- The events one expense contributes: a credit of the full amount to a
truthy payer, then a debit for every unsettled share. -/
def expenseEvents (e : ExpenseRec) : List (ℕ × ℤ) :=
  payerEvents e.paid_by e.amountC ++
  (e.shares.filter (fun sh => !sh.is_settled)).map (fun sh => (sh.user_id, -sh.amountC))

lemma netLookup_cons (p : ℕ × ℤ) (rest : List (ℕ × ℤ)) (uid : ℕ) :
    netLookup (p :: rest) uid = if p.1 = uid then some p.2 else netLookup rest uid := by
  by_cases h : p.1 = uid
  · unfold netLookup
    rw [List.find?_cons_of_pos _ (by simp [h]), if_pos h]
    rfl
  · unfold netLookup
    rw [List.find?_cons_of_neg _ (by simp [h]), if_neg h]

lemma updNet_cons (p : ℕ × ℤ) (rest : List (ℕ × ℤ)) (u : ℕ) (d : ℤ) :
    updNet (p :: rest) u d
      = if p.1 = u then (p.1, p.2 + d) :: rest else p :: updNet rest u d := by
  by_cases h : p.1 = u <;> simp [updNet, h]

lemma netLookup_updNet : ∀ (net : List (ℕ × ℤ)) (u : ℕ) (d : ℤ) (uid : ℕ),
    netLookup (updNet net u d) uid =
      if uid = u then some ((netLookup net u).getD 0 + d) else netLookup net uid
  | [], u, d, uid => by
    rw [show updNet [] u d = [(u, d)] from rfl, netLookup_cons]
    by_cases h : uid = u
    · subst h
      simp [netLookup]
    · rw [if_neg (fun hh => h hh.symm), if_neg h]
  | p :: rest, u, d, uid => by
    rw [updNet_cons]
    by_cases hpu : p.1 = u
    · rw [if_pos hpu, netLookup_cons, netLookup_cons, netLookup_cons]
      by_cases h : uid = u
      · subst h
        simp [hpu]
      · have hp2 : ¬ p.1 = uid := fun hh => h (hh.symm.trans hpu)
        simp [hp2, h]
    · rw [if_neg hpu, netLookup_cons, netLookup_updNet rest u d uid, netLookup_cons,
        netLookup_cons]
      by_cases h : uid = u
      · subst h
        simp [hpu]
      · simp [h]

lemma evSum_cons (u : ℕ) (d : ℤ) (tail : List (ℕ × ℤ)) (uid : ℕ) :
    evSum ((u, d) :: tail) uid = (if u = uid then d else 0) + evSum tail uid := by
  by_cases h : u = uid <;> simp [evSum, h]

lemma evSum_of_not_mem (events : List (ℕ × ℤ)) (uid : ℕ)
    (h : uid ∉ events.map Prod.fst) : evSum events uid = 0 := by
  unfold evSum
  rw [List.filter_eq_nil_iff.mpr]
  · rfl
  · intro ev hev
    simp only [beq_iff_eq]
    intro hh
    exact h (hh ▸ List.mem_map_of_mem Prod.fst hev)

lemma netLookup_processEvents : ∀ (events net : List (ℕ × ℤ)) (uid : ℕ),
    netLookup (processEvents net events) uid =
      if uid ∈ events.map Prod.fst
      then some ((netLookup net uid).getD 0 + evSum events uid)
      else netLookup net uid
  | [], net, uid => by simp [processEvents, evSum, netLookup]
  | (u, d) :: tail, net, uid => by
    show netLookup (processEvents (updNet net u d) tail) uid = _
    rw [netLookup_processEvents tail (updNet net u d) uid, evSum_cons]
    simp only [List.map_cons, List.mem_cons]
    by_cases hm : uid ∈ tail.map Prod.fst
    · rw [if_pos hm, if_pos (Or.inr hm), netLookup_updNet]
      by_cases h : uid = u
      · subst h
        rw [if_pos rfl, if_pos rfl]
        simp [add_assoc]
      · rw [if_neg h, if_neg (fun hh => h hh.symm)]
        simp
    · rw [if_neg hm, netLookup_updNet]
      by_cases h : uid = u
      · subst h
        rw [if_pos rfl, if_pos (Or.inl rfl), if_pos rfl,
          evSum_of_not_mem tail uid hm]
        simp
      · rw [if_neg h, if_neg (by
          intro hh
          rcases hh with hh | hh
          · exact h hh
          · exact hm hh)]

lemma processEvents_append (net a b) :
    processEvents net (a ++ b) = processEvents (processEvents net a) b := by
  simp [processEvents]

lemma shares_fold_eq : ∀ (shs : List ShareRec) (net : List (ℕ × ℤ)),
    shs.foldl (fun n sh => if sh.is_settled then n else updNet n sh.user_id (-sh.amountC)) net
      = processEvents net
          ((shs.filter (fun sh => !sh.is_settled)).map (fun sh => (sh.user_id, -sh.amountC)))
  | [], net => rfl
  | sh :: rest, net => by
    by_cases hset : sh.is_settled = true
    · simp only [List.foldl_cons, hset, if_true, List.filter_cons, Bool.not_true,
        Bool.false_eq_true, if_false]
      exact shares_fold_eq rest net
    · have hset' : sh.is_settled = false := by
        revert hset; cases sh.is_settled <;> simp
      simp only [List.foldl_cons, hset', Bool.false_eq_true, if_false,
        List.filter_cons, Bool.not_false, if_true, List.map_cons]
      exact shares_fold_eq rest (updNet net sh.user_id (-sh.amountC))

lemma expenseStep_eq (net : List (ℕ × ℤ)) (e : ExpenseRec) :
    expenseStep net e = processEvents net (expenseEvents e) := by
  obtain ⟨eid, gid, pb, desc, amt, date, shs⟩ := e
  unfold expenseStep expenseEvents
  dsimp only
  cases pb with
  | none => exact shares_fold_eq shs net
  | some p =>
    have hred : shs.foldl
          (fun n sh => if sh.is_settled then n else updNet n sh.user_id (-sh.amountC))
          (if p ≠ 0 then updNet net p amt else net)
        = processEvents net ((if p ≠ 0 then [(p, amt)] else []) ++
            (shs.filter (fun sh => !sh.is_settled)).map
              (fun sh => (sh.user_id, -sh.amountC))) := by
      by_cases hz : p ≠ 0
      · rw [if_pos hz, if_pos hz, List.singleton_append]
        exact shares_fold_eq shs (updNet net p amt)
      · rw [if_neg hz, if_neg hz, List.nil_append]
        exact shares_fold_eq shs net
    exact hred

lemma computeNet_eq (db : DB) (gid : ℕ) :
    computeNet db gid = processEvents [] ((expensesOf db gid).flatMap expenseEvents) := by
  suffices h : ∀ (es : List ExpenseRec) (net : List (ℕ × ℤ)),
      es.foldl expenseStep net = processEvents net (es.flatMap expenseEvents) from
    h (expensesOf db gid) []
  intro es
  induction es with
  | nil => intro net; rfl
  | cons e rest ih =>
    intro net
    rw [List.foldl_cons, List.flatMap_cons, processEvents_append, ← expenseStep_eq]
    exact ih (expenseStep net e)

/-- What the spec says a user's credit is: the full amount of every group
expense that user paid (regardless of any settlement). -/
def paidSum (db : DB) (gid uid : ℕ) : ℤ :=
  ((expensesOf db gid).map (fun e => if e.paid_by = some uid then e.amountC else 0)).sum

/-- What the spec says a user's debit is: the amounts of that user's shares
with `is_settled == false` across the group's expenses. -/
def owedSum (db : DB) (gid uid : ℕ) : ℤ :=
  ((expensesOf db gid).map (fun e =>
    ((e.shares.filter (fun sh => sh.user_id == uid && !sh.is_settled)).map
      (fun sh => sh.amountC)).sum)).sum

/-- A user participates in the group's ledger: payer of some expense or
holder of some unsettled share. -/
def Appears (db : DB) (gid uid : ℕ) : Prop :=
  (∃ e ∈ expensesOf db gid, e.paid_by = some uid) ∨
  (∃ e ∈ expensesOf db gid, ∃ sh ∈ e.shares, sh.is_settled = false ∧ sh.user_id = uid)

instance appearsDecidable (db : DB) (gid uid : ℕ) : Decidable (Appears db gid uid) :=
  inferInstanceAs (Decidable (_ ∨ _))

lemma evSum_append (a b : List (ℕ × ℤ)) (uid : ℕ) :
    evSum (a ++ b) uid = evSum a uid + evSum b uid := by
  simp [evSum, List.filter_append]

lemma sum_map_neg : ∀ (l : List ShareRec),
    (l.map (fun sh => -sh.amountC)).sum = -((l.map (fun sh => sh.amountC)).sum)
  | [] => by simp
  | x :: r => by
    simp only [List.map_cons, List.sum_cons, sum_map_neg r]
    ring

lemma evSum_shareEvents (shs : List ShareRec) (uid : ℕ) :
    evSum ((shs.filter (fun sh => !sh.is_settled)).map
        (fun sh => (sh.user_id, -sh.amountC))) uid
      = -(((shs.filter (fun sh => sh.user_id == uid && !sh.is_settled)).map
            (fun sh => sh.amountC)).sum) := by
  unfold evSum
  rw [List.filter_map, List.map_map, List.filter_filter]
  exact sum_map_neg _

lemma evSum_payerEvents (pb : Option ℕ) (amt : ℤ) (uid : ℕ)
    (hp : pb ≠ some 0) :
    evSum (payerEvents pb amt) uid = if pb = some uid then amt else 0 := by
  cases pb with
  | none => simp [evSum, payerEvents]
  | some p =>
    show evSum (if p ≠ 0 then [(p, amt)] else []) uid
      = if some p = some uid then amt else 0
    rw [if_pos (fun h0 => hp (by rw [h0]))]
    by_cases h : p = uid
    · subst h
      simp [evSum]
    · simp [evSum, h, Option.some.injEq]

lemma evSum_expenseEvents (e : ExpenseRec) (uid : ℕ) (hp : e.paid_by ≠ some 0) :
    evSum (expenseEvents e) uid
      = (if e.paid_by = some uid then e.amountC else 0)
        - ((e.shares.filter (fun sh => sh.user_id == uid && !sh.is_settled)).map
            (fun sh => sh.amountC)).sum := by
  unfold expenseEvents
  rw [evSum_append, evSum_payerEvents e.paid_by e.amountC uid hp, evSum_shareEvents]
  ring

lemma evSum_flatMap (uid : ℕ) : ∀ (es : List ExpenseRec),
    (∀ e ∈ es, e.paid_by ≠ some 0) →
    evSum (es.flatMap expenseEvents) uid
      = (es.map (fun e => if e.paid_by = some uid then e.amountC else 0)).sum
        - (es.map (fun e =>
            ((e.shares.filter (fun sh => sh.user_id == uid && !sh.is_settled)).map
              (fun sh => sh.amountC)).sum)).sum
  | [], _ => by simp [evSum]
  | e :: rest, hp => by
    rw [List.flatMap_cons, evSum_append,
      evSum_expenseEvents e uid (hp e (List.mem_cons_self e rest)),
      evSum_flatMap uid rest (fun x hx => hp x (List.mem_cons_of_mem e hx))]
    simp only [List.map_cons, List.sum_cons]
    ring

lemma mem_expenseEvents_keys (e : ExpenseRec) (uid : ℕ) (hp : e.paid_by ≠ some 0) :
    uid ∈ (expenseEvents e).map Prod.fst ↔
      e.paid_by = some uid ∨
        ∃ sh ∈ e.shares, sh.is_settled = false ∧ sh.user_id = uid := by
  obtain ⟨eid2, gid2, pb, desc, amt, date, shs⟩ := e
  unfold expenseEvents
  rw [List.map_append, List.mem_append]
  apply or_congr
  · cases pb with
    | none => simp [payerEvents]
    | some p =>
      show uid ∈ (if p ≠ 0 then [(p, amt)] else []).map Prod.fst ↔ _
      rw [if_pos (fun h0 => hp (by show some p = some 0; rw [h0]))]
      simp [eq_comm]
  · rw [List.map_map]
    simp only [List.mem_map, Function.comp, List.mem_filter]
    constructor
    · rintro ⟨sh, ⟨hmem, hset⟩, huid⟩
      exact ⟨sh, hmem, by simpa using hset, huid⟩
    · rintro ⟨sh, hmem, hset, huid⟩
      exact ⟨sh, ⟨hmem, by simp [hset]⟩, huid⟩

lemma mem_keys_iff (db : DB) (gid uid : ℕ)
    (hpos : ∀ e ∈ expensesOf db gid, e.paid_by ≠ some 0) :
    uid ∈ ((expensesOf db gid).flatMap expenseEvents).map Prod.fst
      ↔ Appears db gid uid := by
  unfold Appears
  rw [List.map_flatMap, List.mem_flatMap]
  constructor
  · rintro ⟨e, he, hm⟩
    rcases (mem_expenseEvents_keys e uid (hpos e he)).mp hm with h | h
    · exact Or.inl ⟨e, he, h⟩
    · exact Or.inr ⟨e, he, h⟩
  · rintro (⟨e, he, h⟩ | ⟨e, he, h⟩)
    · exact ⟨e, he, (mem_expenseEvents_keys e uid (hpos e he)).mpr (Or.inl h)⟩
    · exact ⟨e, he, (mem_expenseEvents_keys e uid (hpos e he)).mpr (Or.inr h)⟩

/-- C3: for an existing group (all payer ids being real, non-zero user
ids), the balance computation succeeds and maps every user that appears as
a payer or as a holder of an unsettled share to exactly the sum of the full
amounts of the group expenses that user paid (regardless of settlement of
the payer's own shares) minus the sum of that user's unsettled share
amounts; users appearing in neither role are absent from the result.
Amounts are integer cents, so the final 2-decimal quantization of the route
is the identity. -/
theorem claim_C3 (db : DB) (gid : ℕ)
    (hgrp : gid ∈ db.groups)
    (hpos : ∀ e ∈ expensesOf db gid, e.paid_by ≠ some 0) :
    group_balances db gid = .ok (computeNet db gid) ∧
    ∀ uid : ℕ, netLookup (computeNet db gid) uid
      = if Appears db gid uid
        then some (paidSum db gid uid - owedSum db gid uid)
        else none := by
  constructor
  · simp [group_balances, hgrp]
  · intro uid
    rw [computeNet_eq, netLookup_processEvents]
    by_cases ha : Appears db gid uid
    · rw [if_pos ((mem_keys_iff db gid uid hpos).mpr ha), if_pos ha,
        evSum_flatMap uid (expensesOf db gid) hpos]
      show some ((netLookup ([] : List (ℕ × ℤ)) uid).getD 0 + _) = _
      simp [netLookup, paidSum, owedSum]
    · rw [if_neg (fun hm => ha ((mem_keys_iff db gid uid hpos).mp hm)), if_neg ha]
      rfl

/-- The C3 witness store: group 1, expense 10 paid by user 1 (10.00, split
5.00/5.00 unsettled) and expense 20 paid by user 2 (6.00, user 1's 3.00
share settled, user 2's 3.00 share unsettled). -/
def c3db : DB :=
  ⟨[1, 2], [1], [⟨100, 1, 1, none⟩, ⟨101, 1, 2, none⟩],
   [⟨10, 1, some 1, "a", 1000, 0, [⟨11, 1, 500, false⟩, ⟨12, 2, 500, false⟩]⟩,
    ⟨20, 1, some 2, "b", 600, 0, [⟨21, 1, 300, true⟩, ⟨22, 2, 300, false⟩]⟩], 200⟩

/-- Witness for C3 at users 1 and 2 of the concrete store. -/
theorem claim_C3_witness :
    group_balances c3db 1 = .ok (computeNet c3db 1) ∧
    netLookup (computeNet c3db 1) 1
      = (if Appears c3db 1 1 then some (paidSum c3db 1 1 - owedSum c3db 1 1) else none) ∧
    netLookup (computeNet c3db 1) 2
      = (if Appears c3db 1 2 then some (paidSum c3db 1 2 - owedSum c3db 1 2) else none) :=
  ⟨(claim_C3 c3db 1 (by decide) (by decide)).1,
   (claim_C3 c3db 1 (by decide) (by decide)).2 1,
   (claim_C3 c3db 1 (by decide) (by decide)).2 2⟩

end ExpenseSplitter
